import Mathlib

/-!
Verification of the single-vehicle closed-tour routing core
(`Lab-12/Task_3.py`): geometry utilities, greedy nearest-neighbor
optimizer and genetic-algorithm optimizer.

Modelling conventions:
* Python floats are idealized as real numbers (`ℝ`); `math.sqrt` is
  `Real.sqrt`.
* A route is a `List ℕ` of node indices; coordinates are a
  `List (ℝ × ℝ)` indexed by node id.
* Out-of-range list indexing is modelled with `List.getD`; within the
  scope of every theorem below all indices are in range, so the default
  value is never consulted.
* Randomness (`random.shuffle`, `random.choices`, `random.randint`,
  `random.random`, `random.sample`) is modelled by explicit draw
  streams passed as arguments; a raw natural-number draw is reduced
  modulo the size of the range it selects from, exactly the set of
  values the Python generator can produce.
* Python operations that can raise (`1 / 0.0` in `fitness`,
  `random.sample(range(n), 2)` with `n < 2`) are modelled by
  `Option`-valued functions returning `none` on the fault.
-/

namespace Task3

open List

/-- A sensor coordinate: an (x, y) pair of reals. -/
abbrev Coord : Type := ℝ × ℝ

/-- `euclidean_distance(p1, p2)` from the source:
`math.sqrt((p1[0]-p2[0])**2 + (p1[1]-p2[1])**2)`. -/
noncomputable def euclidean_distance (p1 p2 : Coord) : ℝ :=
  Real.sqrt ((p1.1 - p2.1) ^ 2 + (p1.2 - p2.2) ^ 2)

/-- `calculate_total_distance(route, coordinates)` from the source:
returns 0 when `len(route) < 2`, otherwise sums the distances of
consecutive pairs `route[i], route[i+1]` for `i in range(len(route)-1)`
and finally adds the wrap-around edge from `route[-1]` to `route[0]`. -/
noncomputable def calculate_total_distance (route : List ℕ) (coordinates : List Coord) : ℝ :=
  if route.length < 2 then 0
  else
    (((List.range (route.length - 1)).map (fun i =>
        euclidean_distance (coordinates.getD (route.getD i 0) (0, 0))
          (coordinates.getD (route.getD (i + 1) 0) (0, 0)))).sum)
      + euclidean_distance (coordinates.getD (route.getD (route.length - 1) 0) (0, 0))
          (coordinates.getD (route.getD 0 0) (0, 0))

/-- Distances are square roots, hence nonnegative. -/
theorem euclidean_distance_nonneg (p1 p2 : Coord) : 0 ≤ euclidean_distance p1 p2 :=
  Real.sqrt_nonneg _

/-- A total tour distance is a sum of distances, hence nonnegative. -/
theorem calculate_total_distance_nonneg (route : List ℕ) (coordinates : List Coord) :
    0 ≤ calculate_total_distance route coordinates := by
  unfold calculate_total_distance
  split
  · exact le_refl 0
  · refine add_nonneg (List.sum_nonneg ?_) (euclidean_distance_nonneg _ _)
    intro x hx
    obtain ⟨i, _, rfl⟩ := List.mem_map.mp hx
    exact euclidean_distance_nonneg _ _

/-- Modelled from the spec: `tour_length` as the spec phrases it, the sum
of the Euclidean distances over consecutive pairs of the route together
with the wrap-around edge, realized by zipping the route with its
rotation by one (which pairs each node with its successor and the last
node with the first), guarded by the same degenerate case. -/
noncomputable def tour_length_spec (route : List ℕ) (coordinates : List Coord) : ℝ :=
  if route.length < 2 then 0
  else
    ((route.zip (route.rotate 1)).map (fun p =>
      euclidean_distance (coordinates.getD p.1 (0, 0)) (coordinates.getD p.2 (0, 0)))).sum

/-- The source's indexed summation agrees with the spec's zip-with-rotation
formulation of the tour length. -/
theorem calculate_eq_spec (route : List ℕ) (coordinates : List Coord) :
    calculate_total_distance route coordinates = tour_length_spec route coordinates := by
  by_cases h : route.length < 2
  · unfold calculate_total_distance tour_length_spec
    rw [if_pos h, if_pos h]
  · push_neg at h
    have hpos : 0 < route.length := by omega
    obtain ⟨m, hm⟩ : ∃ m, route.length = m + 1 := ⟨route.length - 1, by omega⟩
    unfold calculate_total_distance tour_length_spec
    rw [if_neg (by omega), if_neg (by omega)]
    have hzip : (route.zip (route.rotate 1)).map (fun p =>
        euclidean_distance (coordinates.getD p.1 (0, 0)) (coordinates.getD p.2 (0, 0)))
        = (List.range route.length).map (fun i =>
            euclidean_distance (coordinates.getD (route.getD i 0) (0, 0))
              (coordinates.getD (route.getD ((i + 1) % route.length) 0) (0, 0))) := by
      apply List.ext_getElem
      · simp
      · intro i h1 h2
        simp only [List.getElem_map, List.getElem_zip, List.getElem_range, List.getElem_rotate,
          List.length_map, List.length_range] at h2 ⊢
        rw [List.getD_eq_getElem route 0 (by simpa using h2),
          List.getD_eq_getElem route 0 (Nat.mod_lt _ hpos)]
    rw [hzip, hm, List.range_succ, List.map_append, List.sum_append]
    simp only [List.map_cons, List.map_nil, List.sum_cons, List.sum_nil, add_zero]
    have hm1 : m + 1 - 1 = m := by omega
    rw [hm1]
    congr 1
    · apply congrArg List.sum
      apply List.map_congr_left
      intro i hi
      have hilt : i < m := List.mem_range.mp hi
      rw [Nat.mod_eq_of_lt (by omega)]
    · rw [Nat.mod_self]

/-- `fitness(individual)` from the source:
`1 / calculate_total_distance(individual, coordinates)`.  Python raises
`ZeroDivisionError` when the tour length is zero (there is no
special case in the source); the fault is modelled as `none`. -/
noncomputable def fitness_opt (coordinates : List Coord) (individual : List ℕ) : Option ℝ :=
  if calculate_total_distance individual coordinates = 0 then none
  else some (1 / calculate_total_distance individual coordinates)

/-- One comparison of the inner `for neighbor in unvisited` loop of
`greedy_route_optimizer`: update `(nearest_node, min_distance)` when the
distance to `neighbor` is strictly smaller.  Python starts from
`nearest_node = None, min_distance = inf`; the first (finite) distance
always wins against infinity, which the `none` branch models. -/
noncomputable def scan_step (coordinates : List Coord) (current neighbor : ℕ)
    (acc : Option (ℕ × ℝ)) : Option (ℕ × ℝ) :=
  let dist := euclidean_distance (coordinates.getD current (0, 0))
    (coordinates.getD neighbor (0, 0))
  match acc with
  | none => some (neighbor, dist)
  | some (m, md) => if dist < md then some (neighbor, dist) else some (m, md)

/-- The full inner scan over `unvisited`. -/
noncomputable def scan_nearest (coordinates : List Coord) (current : ℕ) :
    List ℕ → Option (ℕ × ℝ) → Option (ℕ × ℝ)
  | [], acc => acc
  | neighbor :: rest, acc =>
      scan_nearest coordinates current rest (scan_step coordinates current neighbor acc)

/-- A comparison step always yields a candidate. -/
theorem scan_step_isSome (coordinates : List Coord) (current neighbor : ℕ)
    (acc : Option (ℕ × ℝ)) : ∃ q, scan_step coordinates current neighbor acc = some q := by
  unfold scan_step
  rcases acc with _ | ⟨m, md⟩
  · exact ⟨_, rfl⟩
  · dsimp only
    split
    · exact ⟨_, rfl⟩
    · exact ⟨_, rfl⟩

/-- The candidate a comparison step yields is the neighbor or comes from
the accumulator. -/
theorem scan_step_mem (coordinates : List Coord) (current neighbor : ℕ)
    (acc : Option (ℕ × ℝ)) (m : ℕ) (d : ℝ)
    (h : scan_step coordinates current neighbor acc = some (m, d)) :
    m = neighbor ∨ ∃ d', acc = some (m, d') := by
  unfold scan_step at h
  rcases acc with _ | ⟨m0, md⟩
  · rw [Option.some.injEq, Prod.mk.injEq] at h
    exact Or.inl h.1.symm
  · dsimp only at h
    split at h
    · rw [Option.some.injEq, Prod.mk.injEq] at h
      exact Or.inl h.1.symm
    · rw [Option.some.injEq, Prod.mk.injEq] at h
      exact Or.inr ⟨md, by rw [h.1]⟩

/-- Starting from a `some` accumulator the scan yields a `some`. -/
theorem scan_nearest_some (coordinates : List Coord) (current : ℕ) :
    ∀ (l : List ℕ) (p : ℕ × ℝ), ∃ q, scan_nearest coordinates current l (some p) = some q := by
  intro l
  induction l with
  | nil => intro p; exact ⟨p, rfl⟩
  | cons x rest ih =>
      intro p
      show ∃ q, scan_nearest coordinates current rest
        (scan_step coordinates current x (some p)) = some q
      obtain ⟨q', hq'⟩ := scan_step_isSome coordinates current x (some p)
      rw [hq']
      exact ih q'

/-- If the scan of `l` returns node `m`, then `m` came either from `l`
or from the starting accumulator. -/
theorem scan_nearest_mem (coordinates : List Coord) (current : ℕ) :
    ∀ (l : List ℕ) (acc : Option (ℕ × ℝ)) (m : ℕ) (d : ℝ),
      scan_nearest coordinates current l acc = some (m, d) →
      m ∈ l ∨ ∃ d', acc = some (m, d') := by
  intro l
  induction l with
  | nil =>
      intro acc m d h
      exact Or.inr ⟨d, h⟩
  | cons x rest ih =>
      intro acc m d h
      rw [show scan_nearest coordinates current (x :: rest) acc =
        scan_nearest coordinates current rest (scan_step coordinates current x acc) from rfl] at h
      rcases ih _ m d h with hm | ⟨d', hd'⟩
      · exact Or.inl (List.mem_cons_of_mem _ hm)
      · rcases scan_step_mem coordinates current x acc m d' hd' with rfl | h2
        · exact Or.inl (List.mem_cons_self _ _)
        · exact Or.inr h2

/-- A scan over a nonempty list from the empty accumulator succeeds. -/
theorem scan_nearest_nil_of_none (coordinates : List Coord) (current : ℕ) :
    ∀ l : List ℕ, scan_nearest coordinates current l none = none → l = [] := by
  intro l h
  cases l with
  | nil => rfl
  | cons x rest =>
      exfalso
      rw [show scan_nearest coordinates current (x :: rest) none =
        scan_nearest coordinates current rest (scan_step coordinates current x none) from rfl] at h
      obtain ⟨q0, hq0⟩ := scan_step_isSome coordinates current x none
      rw [hq0] at h
      obtain ⟨q, hq⟩ := scan_nearest_some coordinates current rest q0
      rw [hq] at h
      exact Option.noConfusion h

/-- The `while unvisited:` loop of `greedy_route_optimizer`, with a fuel
bound.  Every iteration removes the selected node from `unvisited`
(Python's `unvisited.remove`), so fuel `≥ len(unvisited)` makes the
fueled recursion equal to the source's while loop. -/
noncomputable def greedy_go (coordinates : List Coord) :
    ℕ → List ℕ → ℕ → List ℕ → List ℕ
  | 0, _, _, route => route
  | fuel + 1, unvisited, current, route =>
      match scan_nearest coordinates current unvisited none with
      | none => route
      | some (m, _) => greedy_go coordinates fuel (unvisited.erase m) m (route ++ [m])

/-- `greedy_route_optimizer(coordinates)` from the source: start at node
0, with `unvisited = list(range(1, num_sensors))`, repeatedly append the
nearest unvisited node (ties broken by first encounter in scan order). -/
noncomputable def greedy_route_optimizer (coordinates : List Coord) : List ℕ :=
  greedy_go coordinates coordinates.length (List.range' 1 (coordinates.length - 1)) 0 [0]

/-- The greedy loop permutes `route ++ unvisited` when given enough fuel. -/
theorem greedy_go_perm (coordinates : List Coord) :
    ∀ (fuel : ℕ) (unvisited : List ℕ) (current : ℕ) (route : List ℕ),
      unvisited.length ≤ fuel →
      (greedy_go coordinates fuel unvisited current route).Perm (route ++ unvisited) := by
  intro fuel
  induction fuel with
  | zero =>
      intro unvisited current route h
      have : unvisited = [] := List.eq_nil_of_length_eq_zero (by omega)
      subst this
      simp [greedy_go]
  | succ fuel ih =>
      intro unvisited current route h
      unfold greedy_go
      rcases hscan : scan_nearest coordinates current unvisited none with _ | ⟨m, d⟩
      · have : unvisited = [] := scan_nearest_nil_of_none coordinates current unvisited hscan
        subst this
        simp
      · have hm : m ∈ unvisited := by
          rcases scan_nearest_mem coordinates current unvisited none m d hscan with h' | ⟨d', h'⟩
          · exact h'
          · exact Option.noConfusion h'
        have hlen : (unvisited.erase m).length ≤ fuel := by
          rw [List.length_erase_of_mem hm]
          have := List.length_pos_of_mem hm
          omega
        refine (ih (unvisited.erase m) m (route ++ [m]) hlen).trans ?_
        rw [List.append_assoc]
        exact List.Perm.append_left route
          (List.singleton_append ▸ (List.perm_cons_erase hm).symm)

/-- For a nonempty coordinate set the greedy route is a permutation of
all node indices. -/
theorem greedy_route_optimizer_perm (coordinates : List Coord)
    (h : 1 ≤ coordinates.length) :
    (greedy_route_optimizer coordinates).Perm (List.range coordinates.length) := by
  unfold greedy_route_optimizer
  have hfuel : (List.range' 1 (coordinates.length - 1)).length ≤ coordinates.length := by
    rw [List.length_range']
    omega
  refine (greedy_go_perm coordinates coordinates.length _ 0 [0] hfuel).trans ?_
  obtain ⟨m, hm⟩ : ∃ m, coordinates.length = m + 1 := ⟨coordinates.length - 1, by omega⟩
  rw [hm, List.range_eq_range', List.range'_succ]
  simp

/-- The final `for i in range(num_sensors)` loop of `crossover`: replace
each `-1` placeholder (modelled `none`) by the next element of
`remaining`, left to right.  An exhausted `remaining` would raise
`IndexError` in Python (`remaining[current_pos]`); that branch emits `0`
and is unreachable whenever the parents are permutations of the node
set, which is the only way `crossover` is ever invoked. -/
def fill_child : List (Option ℕ) → List ℕ → List ℕ
  | [], _ => []
  | none :: cs, [] => 0 :: fill_child cs []
  | none :: cs, r :: rs => r :: fill_child cs rs
  | some c :: cs, rem => c :: fill_child cs rem

/-- `crossover(parent1, parent2)` from the source, with the random slice
bounds (`start = random.randint(0, num_sensors - 1)`,
`end = random.randint(start + 1, num_sensors)`) passed explicitly:
`child = [-1] * num_sensors` (the `-1` placeholder modelled as `none`);
`child[start:end] = parent1[start:end]`; `remaining` keeps the items of
`parent2` not in the copied slice, in `parent2`'s order; the final loop
fills the placeholders left to right from `remaining`. -/
def xslice (parent1 : List ℕ) (start stop : ℕ) : List ℕ :=
  (parent1.drop start).take (stop - start)

/-- `remaining = [item for item in parent2 if item not in child[start:end]]`
from the source (after the slice assignment, `child[start:end]` holds
exactly `parent1[start:end]`). -/
def xremaining (parent1 parent2 : List ℕ) (start stop : ℕ) : List ℕ :=
  parent2.filter (fun item => decide (item ∉ xslice parent1 start stop))

def crossover (num_sensors : ℕ) (parent1 parent2 : List ℕ) (start stop : ℕ) : List ℕ :=
  let child0 : List (Option ℕ) := List.replicate num_sensors none
  let child := child0.take start ++ (xslice parent1 start stop).map some ++ child0.drop stop
  fill_child child (xremaining parent1 parent2 start stop)

/-- Leading placeholders consume a prefix of `remaining`. -/
theorem fill_child_replicate_none (k : ℕ) (cs : List (Option ℕ)) (rem : List ℕ)
    (h : k ≤ rem.length) :
    fill_child (List.replicate k none ++ cs) rem
      = rem.take k ++ fill_child cs (rem.drop k) := by
  induction k generalizing rem with
  | zero => simp [List.replicate]
  | succ k ih =>
      cases rem with
      | nil => simp at h
      | cons r rs =>
          rw [List.replicate_succ]
          show r :: fill_child (List.replicate k none ++ cs) rs = _
          rw [ih rs (by simpa using h)]
          simp

/-- Already-placed values pass through the filling loop unchanged. -/
theorem fill_child_map_some (L : List ℕ) (cs : List (Option ℕ)) (rem : List ℕ) :
    fill_child (L.map some ++ cs) rem = L ++ fill_child cs rem := by
  induction L with
  | nil => simp
  | cons x xs ih =>
      show x :: fill_child (xs.map some ++ cs) rem = _
      rw [ih]
      simp

/-- Trailing placeholders consume exactly the rest of `remaining`. -/
theorem fill_child_replicate_none_exact (b : ℕ) (rem : List ℕ) (h : rem.length = b) :
    fill_child (List.replicate b none) rem = rem := by
  induction b generalizing rem with
  | zero =>
      have : rem = [] := List.eq_nil_of_length_eq_zero h
      subst this
      rfl
  | succ b ih =>
      cases rem with
      | nil => simp at h
      | cons r rs =>
          rw [List.replicate_succ]
          show r :: fill_child (List.replicate b none) rs = r :: rs
          rw [ih rs (by simpa using h)]

/-- The copied slice has length `stop - start` when the bounds are valid. -/
theorem xslice_length (parent1 : List ℕ) (start stop n : ℕ)
    (hlen : parent1.length = n) (hss : start < stop) (hsn : stop ≤ n) :
    (xslice parent1 start stop).length = stop - start := by
  unfold xslice
  rw [List.length_take, List.length_drop, hlen]
  omega

/-- The copied slice is a sublist of `parent1`. -/
theorem xslice_sublist (parent1 : List ℕ) (start stop : ℕ) :
    (xslice parent1 start stop).Sublist parent1 :=
  (List.take_sublist _ _).trans (List.drop_sublist _ _)

/-- In `parent2`, the items lying in the slice are, up to order, exactly
the slice (both are duplicate-free with the same membership). -/
theorem filter_mem_slice_perm (parent1 parent2 : List ℕ) (start stop n : ℕ)
    (hp1 : parent1.Perm (List.range n)) (hp2 : parent2.Perm (List.range n)) :
    (parent2.filter (fun item => decide (item ∈ xslice parent1 start stop))).Perm
      (xslice parent1 start stop) := by
  have hnd1 : parent1.Nodup := hp1.symm.nodup (List.nodup_range n)
  have hnd2 : parent2.Nodup := hp2.symm.nodup (List.nodup_range n)
  have hslice_nd : (xslice parent1 start stop).Nodup :=
    (xslice_sublist parent1 start stop).nodup hnd1
  refine (List.perm_ext_iff_of_nodup (hnd2.filter _) hslice_nd).mpr ?_
  intro a
  simp only [List.mem_filter, decide_eq_true_eq]
  constructor
  · rintro ⟨_, h⟩
    exact h
  · intro ha
    exact ⟨hp2.mem_iff.mpr (hp1.mem_iff.mp ((xslice_sublist parent1 start stop).subset ha)), ha⟩

/-- The remainder is the complement filter of the slice-membership filter. -/
theorem xremaining_eq_filter_not (parent1 parent2 : List ℕ) (start stop : ℕ) :
    xremaining parent1 parent2 start stop
      = parent2.filter (fun item => !(decide (item ∈ xslice parent1 start stop))) := by
  unfold xremaining
  simp only [decide_not]

/-- How many items of `parent2` are left once slice members are removed. -/
theorem xremaining_length (parent1 parent2 : List ℕ) (start stop n : ℕ)
    (hp1 : parent1.Perm (List.range n)) (hp2 : parent2.Perm (List.range n))
    (hss : start < stop) (hsn : stop ≤ n) :
    (xremaining parent1 parent2 start stop).length = start + (n - stop) := by
  have hlen1 : parent1.length = n := hp1.length_eq.trans (List.length_range n)
  have hlen2 : parent2.length = n := hp2.length_eq.trans (List.length_range n)
  have hperm := List.filter_append_perm
    (fun item => decide (item ∈ xslice parent1 start stop)) parent2
  have hlen := hperm.length_eq
  rw [List.length_append] at hlen
  have h1 : (parent2.filter (fun item =>
      decide (item ∈ xslice parent1 start stop))).length = stop - start :=
    (filter_mem_slice_perm parent1 parent2 start stop n hp1 hp2).length_eq.trans
      (xslice_length parent1 start stop n hlen1 hss hsn)
  rw [xremaining_eq_filter_not]
  omega

/-- The source's fill loop places the remainder's first `start` items
before the copied slice and the rest after it. -/
theorem crossover_structure (n : ℕ) (parent1 parent2 : List ℕ) (start stop : ℕ)
    (hp1 : parent1.Perm (List.range n)) (hp2 : parent2.Perm (List.range n))
    (hss : start < stop) (hsn : stop ≤ n) :
    crossover n parent1 parent2 start stop
      = (xremaining parent1 parent2 start stop).take start
        ++ xslice parent1 start stop
        ++ (xremaining parent1 parent2 start stop).drop start := by
  have hrl := xremaining_length parent1 parent2 start stop n hp1 hp2 hss hsn
  show fill_child ((List.replicate n (none : Option ℕ)).take start
      ++ (xslice parent1 start stop).map some
      ++ (List.replicate n (none : Option ℕ)).drop stop)
      (xremaining parent1 parent2 start stop) = _
  rw [List.take_replicate, List.drop_replicate,
    show start ⊓ n = start from min_eq_left (by omega), List.append_assoc,
    fill_child_replicate_none start _ _ (by omega),
    fill_child_map_some,
    fill_child_replicate_none_exact (n - stop) _ (by rw [List.length_drop]; omega),
    List.append_assoc]

/-- The crossover child is a permutation of the node set. -/
theorem crossover_perm (n : ℕ) (parent1 parent2 : List ℕ) (start stop : ℕ)
    (hp1 : parent1.Perm (List.range n)) (hp2 : parent2.Perm (List.range n))
    (hss : start < stop) (hsn : stop ≤ n) :
    (crossover n parent1 parent2 start stop).Perm (List.range n) := by
  rw [crossover_structure n parent1 parent2 start stop hp1 hp2 hss hsn]
  calc (xremaining parent1 parent2 start stop).take start
        ++ xslice parent1 start stop
        ++ (xremaining parent1 parent2 start stop).drop start
      ~ (xremaining parent1 parent2 start stop).take start
        ++ ((xremaining parent1 parent2 start stop).drop start
          ++ xslice parent1 start stop) := by
        rw [List.append_assoc]
        exact List.Perm.append_left _ List.perm_append_comm
    _ = xremaining parent1 parent2 start stop ++ xslice parent1 start stop := by
        rw [← List.append_assoc, List.take_append_drop]
    _ ~ xremaining parent1 parent2 start stop
        ++ parent2.filter (fun item => decide (item ∈ xslice parent1 start stop)) :=
        List.Perm.append_left _
          (filter_mem_slice_perm parent1 parent2 start stop n hp1 hp2).symm
    _ ~ parent2.filter (fun item => decide (item ∈ xslice parent1 start stop))
        ++ xremaining parent1 parent2 start stop := List.perm_append_comm
    _ ~ parent2 := by
        rw [xremaining_eq_filter_not]
        exact List.filter_append_perm _ parent2
    _ ~ List.range n := hp2

/-- C1: for parent routes that are permutations of `{0..n-1}` and slice
bounds `0 ≤ start < stop ≤ n`, the order-crossover child is a valid
permutation of `{0..n-1}` (no duplicates, no omissions), carries
`parent1`'s slice verbatim at the same positions, and fills the
remaining positions left to right with `parent2`'s nodes outside the
slice, preserving `parent2`'s relative order. -/
theorem C1_order_crossover_permutation (n : ℕ) (parent1 parent2 : List ℕ) (start stop : ℕ)
    (hp1 : parent1.Perm (List.range n)) (hp2 : parent2.Perm (List.range n))
    (hss : start < stop) (hsn : stop ≤ n) :
    (crossover n parent1 parent2 start stop).Perm (List.range n) ∧
    (crossover n parent1 parent2 start stop).Nodup ∧
    ((crossover n parent1 parent2 start stop).drop start).take (stop - start)
      = xslice parent1 start stop ∧
    (crossover n parent1 parent2 start stop).take start
      ++ (crossover n parent1 parent2 start stop).drop stop
      = xremaining parent1 parent2 start stop := by
  have hperm := crossover_perm n parent1 parent2 start stop hp1 hp2 hss hsn
  have hstruct := crossover_structure n parent1 parent2 start stop hp1 hp2 hss hsn
  have hrl := xremaining_length parent1 parent2 start stop n hp1 hp2 hss hsn
  have hlen1 : parent1.length = n := hp1.length_eq.trans (List.length_range n)
  have hsl := xslice_length parent1 start stop n hlen1 hss hsn
  have htake_len : ((xremaining parent1 parent2 start stop).take start).length = start := by
    rw [List.length_take]
    omega
  refine ⟨hperm, hperm.symm.nodup (List.nodup_range n), ?_, ?_⟩
  · rw [hstruct, List.append_assoc, List.drop_left' htake_len, List.take_left' hsl]
  · rw [hstruct, List.append_assoc, List.take_left' htake_len, ← List.append_assoc,
      List.drop_left' (by rw [List.length_append]; omega), List.take_append_drop]

/-- Concrete instance of `C1_order_crossover_permutation`:
parents `[0,1,2,3]` and `[3,2,1,0]` with slice `[1,3)`. -/
theorem C1_order_crossover_permutation_witness :
    (([0, 1, 2, 3] : List ℕ).Perm (List.range 4) ∧
      ([3, 2, 1, 0] : List ℕ).Perm (List.range 4) ∧ 1 < 3 ∧ 3 ≤ 4) ∧
    ((crossover 4 [0, 1, 2, 3] [3, 2, 1, 0] 1 3).Perm (List.range 4) ∧
      (crossover 4 [0, 1, 2, 3] [3, 2, 1, 0] 1 3).Nodup ∧
      ((crossover 4 [0, 1, 2, 3] [3, 2, 1, 0] 1 3).drop 1).take (3 - 1)
        = xslice [0, 1, 2, 3] 1 3 ∧
      (crossover 4 [0, 1, 2, 3] [3, 2, 1, 0] 1 3).take 1
        ++ (crossover 4 [0, 1, 2, 3] [3, 2, 1, 0] 1 3).drop 3
        = xremaining [0, 1, 2, 3] [3, 2, 1, 0] 1 3) :=
  ⟨⟨by decide, by decide, by decide, by decide⟩,
    C1_order_crossover_permutation 4 [0, 1, 2, 3] [3, 2, 1, 0] 1 3
      (by decide) (by decide) (by decide) (by decide)⟩

/-- The swap
`individual[idx1], individual[idx2] = individual[idx2], individual[idx1]`
of `mutate`: both right-hand values are read before either assignment. -/
def swapL (l : List ℕ) (idx1 idx2 : ℕ) : List ℕ :=
  (l.set idx1 (l.getD idx2 0)).set idx2 (l.getD idx1 0)

/-- Swapping two in-range positions permutes the list. -/
theorem swapL_perm (l : List ℕ) (a b : ℕ) (ha : a < l.length) (hb : b < l.length) :
    (swapL l a b).Perm l := by
  rw [List.perm_iff_count]
  intro x
  unfold swapL
  have hb' : b < (l.set a (l.getD b 0)).length := by simpa using hb
  rw [List.count_set _ _ _ _ hb', List.count_set _ _ _ _ ha]
  have hgetb : (l.set a (l.getD b 0))[b] = l.getD b 0 := by
    rcases eq_or_ne a b with rfl | hne
    · rw [List.getElem_set_self]
    · rw [List.getElem_set_ne hne]
      exact (List.getD_eq_getElem l 0 hb).symm
  rw [hgetb, List.getD_eq_getElem l 0 ha, List.getD_eq_getElem l 0 hb]
  have hca : l[a] = x → 0 < List.count x l := fun h =>
    List.count_pos_iff.mpr (h ▸ List.getElem_mem ha)
  by_cases hax : l[a] = x <;> by_cases hbx : l[b] = x <;>
      simp only [hax, hbx, beq_iff_eq, if_true, if_false, beq_self_eq_true, if_pos, if_neg] <;>
    omega

/-- `random.sample(range(num_sensors), 2)` in `mutate`: two distinct
in-range positions, driven by two raw draws (the first picks among `n`
positions, the second among the `n - 1` others).  Python raises
`ValueError` when `n < 2` ("sample larger than population"), modelled as
`none`. -/
def sample2 (num_sensors : ℕ) (draw1 draw2 : ℕ) : Option (ℕ × ℕ) :=
  if num_sensors < 2 then none
  else
    let idx1 := draw1 % num_sensors
    let idx2raw := draw2 % (num_sensors - 1)
    some (idx1, if idx2raw < idx1 then idx2raw else idx2raw + 1)

/-- `mutate(individual, rate)` from the source: with
`random.random() < rate` (the drawn value `r` passed explicitly), swap
two distinct sampled positions; otherwise return the individual
unchanged.  The `none` branch of `sample2` (Python `ValueError`, only
possible for `num_sensors < 2`) leaves the individual unchanged here;
inside `genetic_algorithm` it is unreachable because a `num_sensors < 2`
run already fails in `fitness` (see `fitness_opt`). -/
noncomputable def mutate (num_sensors : ℕ) (individual : List ℕ) (rate r : ℝ)
    (pos : ℕ × ℕ) : List ℕ :=
  if r < rate then
    match sample2 num_sensors pos.1 pos.2 with
    | some (idx1, idx2) => swapL individual idx1 idx2
    | none => individual
  else individual

/-- `fitness(individual)` as used inside `genetic_algorithm` for sorting
and selection weights, totalized over ℝ (Lean's `1 / 0 = 0`); it agrees
with the source whenever the tour length is nonzero, and the zero case —
where Python raises — is tracked separately by `fitness_opt`. -/
noncomputable def fitness (coordinates : List Coord) (individual : List ℕ) : ℝ :=
  1 / calculate_total_distance individual coordinates

/-- `sorted(population, key=fitness, reverse=True)` from
`genetic_algorithm`: a stable sort putting higher fitness first. -/
noncomputable def sort_by_fitness (coordinates : List Coord)
    (population : List (List ℕ)) : List (List ℕ) :=
  population.mergeSort (fun a b => decide (fitness coordinates b ≤ fitness coordinates a))

/-- `elite_size = int(population_size * 0.1)` from the source: Python's
`int()` truncates the float product toward zero, which for a
natural-number population size is floor division by 10. -/
def elite_size (population_size : ℕ) : ℕ :=
  population_size / 10

/-- The random draws consumed by one generation of `genetic_algorithm`:
`pool k` drives the `k`-th slot of
`weighted_choices = random.choices(population, weights=fitnesses, k=population_size)`
(fitness-proportional selection can return any member, every weight
being positive in scope, so the draw is an arbitrary index reduced
modulo the population length); `par j` drives
`parent1, parent2 = random.choices(weighted_choices, k=2)` for child
`j`; `xo j` drives the crossover bounds
`start = random.randint(0, num_sensors - 1)`,
`end = random.randint(start + 1, num_sensors)`; `mr j` is the
`random.random()` value tested against the mutation rate; `mpos j`
drives `random.sample(range(num_sensors), 2)`. -/
structure GenDraws where
  pool : ℕ → ℕ
  par : ℕ → ℕ × ℕ
  xo : ℕ → ℕ × ℕ
  mr : ℕ → ℝ
  mpos : ℕ → ℕ × ℕ

/-- The crossover slice bounds built from the raw draws of child `j`,
exactly the ranges `randint(0, num_sensors - 1)` and
`randint(start + 1, num_sensors)` can produce. -/
def xo_bounds (num_sensors : ℕ) (raw : ℕ × ℕ) : ℕ × ℕ :=
  let start := raw.1 % num_sensors
  (start, start + 1 + raw.2 % (num_sensors - start))

/-- `weighted_choices = random.choices(population, weights=fitnesses,
k=population_size)`: slot `k` holds the population member the `k`-th
weighted draw selects. -/
def weighted_choices (population : List (List ℕ)) (population_size : ℕ)
    (d : GenDraws) : List (List ℕ) :=
  (List.range population_size).map
    (fun k => population.getD (d.pool k % population.length) [])

/-- One child of the `while len(next_generation) < population_size` loop:
draw two parents from the weighted pool, cross them over, mutate. -/
noncomputable def make_child (coordinates : List Coord) (population_size : ℕ)
    (mutation_rate : ℝ) (pool : List (List ℕ)) (d : GenDraws) (j : ℕ) : List ℕ :=
  mutate coordinates.length
    (crossover coordinates.length
      (pool.getD ((d.par j).1 % population_size) [])
      (pool.getD ((d.par j).2 % population_size) [])
      (xo_bounds coordinates.length (d.xo j)).1
      (xo_bounds coordinates.length (d.xo j)).2)
    mutation_rate (d.mr j) (d.mpos j)

/-- One iteration of the `for generation in range(generations)` loop of
`genetic_algorithm`: build the weighted selection pool, copy the
`elite_size` fittest individuals, then fill the next generation with
crossover-and-mutation children. -/
noncomputable def ga_step (coordinates : List Coord) (population_size : ℕ)
    (mutation_rate : ℝ) (population : List (List ℕ)) (d : GenDraws) : List (List ℕ) :=
  (sort_by_fitness coordinates population).take (elite_size population_size)
    ++ (List.range (population_size - elite_size population_size)).map
        (make_child coordinates population_size mutation_rate
          (weighted_choices population population_size d) d)

/-- The whole `for generation in range(generations)` loop. -/
noncomputable def run_ga (coordinates : List Coord) (population_size : ℕ)
    (mutation_rate : ℝ) : ℕ → List (List ℕ) → (ℕ → GenDraws) → List (List ℕ)
  | 0, population, _ => population
  | g + 1, population, draws =>
      run_ga coordinates population_size mutation_rate g
        (ga_step coordinates population_size mutation_rate population (draws 0))
        (fun k => draws (k + 1))

/-- `max(population, key=fitness)` from the source: scan left to right,
replacing the current best only on a strictly larger key, so the first
individual with maximal fitness is returned. -/
noncomputable def max_fold (coordinates : List Coord) :
    List ℕ → List (List ℕ) → List ℕ
  | best, [] => best
  | best, x :: xs =>
      max_fold coordinates
        (if fitness coordinates best < fitness coordinates x then x else best) xs

/-- `max(population, key=fitness)`; Python raises on an empty population
(unreachable: the population always has `population_size ≥ 1` members),
modelled by returning the empty route. -/
noncomputable def max_by_fitness (coordinates : List Coord) :
    List (List ℕ) → List ℕ
  | [] => []
  | x :: xs => max_fold coordinates x xs

/-- `best_fitness(population)`: the fitness of the individual
`max(population, key=fitness)` returns. -/
noncomputable def best_fitness (coordinates : List Coord)
    (population : List (List ℕ)) : ℝ :=
  fitness coordinates (max_by_fitness coordinates population)

/-- `genetic_algorithm(coordinates, population_size, generations,
mutation_rate)` from the source.  `init i` is the result of
`random.shuffle` for the `i`-th initial individual (always a permutation
of `range(num_sensors)`); `draws g` are the random draws of generation
`g`.  Returns the fittest individual of the final population. -/
noncomputable def genetic_algorithm (coordinates : List Coord)
    (population_size generations : ℕ) (mutation_rate : ℝ)
    (init : ℕ → List ℕ) (draws : ℕ → GenDraws) : List ℕ :=
  max_by_fitness coordinates
    (run_ga coordinates population_size mutation_rate generations
      ((List.range population_size).map init) draws)

/-- Sampled mutation positions are in range. -/
theorem sample2_lt (n d1 d2 a b : ℕ) (h : sample2 n d1 d2 = some (a, b)) :
    a < n ∧ b < n := by
  unfold sample2 at h
  split at h
  · exact absurd h (by simp)
  · next hn =>
      rw [Option.some.injEq, Prod.mk.injEq] at h
      have hn2 : 2 ≤ n := by omega
      have h2 : d2 % (n - 1) < n - 1 := Nat.mod_lt _ (by omega)
      have h1 : d1 % n < n := Nat.mod_lt _ (by omega)
      constructor
      · omega
      · rw [← h.2]
        split <;> omega

/-- Mutation preserves the permutation invariant. -/
theorem mutate_perm (n : ℕ) (individual : List ℕ) (rate r : ℝ) (pos : ℕ × ℕ)
    (hp : individual.Perm (List.range n)) :
    (mutate n individual rate r pos).Perm (List.range n) := by
  unfold mutate
  split
  · rcases hs : sample2 n pos.1 pos.2 with _ | ⟨a, b⟩
    · exact hp
    · have hlen : individual.length = n := hp.length_eq.trans (List.length_range n)
      obtain ⟨ha, hb⟩ := sample2_lt n pos.1 pos.2 a b hs
      exact (swapL_perm individual a b (by omega) (by omega)).trans hp
  · exact hp

/-- The sorted population is a rearrangement of the population. -/
theorem sort_by_fitness_perm (coordinates : List Coord) (population : List (List ℕ)) :
    (sort_by_fitness coordinates population).Perm population :=
  List.mergeSort_perm population _

/-- The sorted population is in descending fitness order. -/
theorem sort_by_fitness_sorted (coordinates : List Coord) (population : List (List ℕ)) :
    (sort_by_fitness coordinates population).Pairwise
      (fun a b => fitness coordinates b ≤ fitness coordinates a) := by
  have htrans : ∀ a b c : List ℕ,
      (fun a b : List ℕ => decide (fitness coordinates b ≤ fitness coordinates a)) a b = true →
      (fun a b : List ℕ => decide (fitness coordinates b ≤ fitness coordinates a)) b c = true →
      (fun a b : List ℕ => decide (fitness coordinates b ≤ fitness coordinates a)) a c
        = true := by
    intro a b c hab hbc
    simp only [decide_eq_true_eq] at hab hbc ⊢
    exact le_trans hbc hab
  have htotal : ∀ a b : List ℕ,
      ((fun a b : List ℕ => decide (fitness coordinates b ≤ fitness coordinates a)) a b
        || (fun a b : List ℕ =>
            decide (fitness coordinates b ≤ fitness coordinates a)) b a) = true := by
    intro a b
    simp only [Bool.or_eq_true, decide_eq_true_eq]
    exact le_total _ _
  have h := List.sorted_mergeSort htrans htotal population
  exact List.Pairwise.imp (fun hab => of_decide_eq_true hab) h

/-- The scan of `max(..., key=fitness)` returns the start value or a
scanned element. -/
theorem max_fold_mem (coordinates : List Coord) :
    ∀ (xs : List (List ℕ)) (best : List ℕ),
      max_fold coordinates best xs = best ∨ max_fold coordinates best xs ∈ xs := by
  intro xs
  induction xs with
  | nil => intro best; exact Or.inl rfl
  | cons x xs ih =>
      intro best
      show max_fold coordinates
          (if fitness coordinates best < fitness coordinates x then x else best) xs = best
        ∨ max_fold coordinates
          (if fitness coordinates best < fitness coordinates x then x else best) xs ∈ x :: xs
      rcases ih (if fitness coordinates best < fitness coordinates x then x else best) with
        h | h
      · rw [h]
        split
        · exact Or.inr (List.mem_cons_self _ _)
        · exact Or.inl rfl
      · exact Or.inr (List.mem_cons_of_mem _ h)

/-- The scan of `max(..., key=fitness)` dominates the start value and
every scanned element. -/
theorem max_fold_ge (coordinates : List Coord) :
    ∀ (xs : List (List ℕ)) (best : List ℕ),
      fitness coordinates best ≤ fitness coordinates (max_fold coordinates best xs) ∧
      ∀ y ∈ xs, fitness coordinates y ≤ fitness coordinates (max_fold coordinates best xs) := by
  intro xs
  induction xs with
  | nil =>
      intro best
      exact ⟨le_refl _, fun y hy => absurd hy (List.not_mem_nil y)⟩
  | cons x xs ih =>
      intro best
      show fitness coordinates best ≤ fitness coordinates (max_fold coordinates
          (if fitness coordinates best < fitness coordinates x then x else best) xs)
        ∧ ∀ y ∈ x :: xs, fitness coordinates y ≤ fitness coordinates (max_fold coordinates
          (if fitness coordinates best < fitness coordinates x then x else best) xs)
      obtain ⟨ih1, ih2⟩ :=
        ih (if fitness coordinates best < fitness coordinates x then x else best)
      constructor
      · by_cases hlt : fitness coordinates best < fitness coordinates x
        · rw [if_pos hlt] at ih1 ⊢
          exact le_trans (le_of_lt hlt) ih1
        · rw [if_neg hlt] at ih1 ⊢
          exact ih1
      · intro y hy
        rcases List.mem_cons.mp hy with rfl | hy
        · by_cases hlt : fitness coordinates best < fitness coordinates y
          · rw [if_pos hlt] at ih1 ⊢
            exact ih1
          · rw [if_neg hlt] at ih1 ⊢
            exact le_trans (not_lt.mp hlt) ih1
        · exact ih2 y hy

/-- `max(population, key=fitness)` returns a member of a nonempty
population. -/
theorem max_by_fitness_mem (coordinates : List Coord) (population : List (List ℕ))
    (h : population ≠ []) : max_by_fitness coordinates population ∈ population := by
  cases population with
  | nil => exact absurd rfl h
  | cons x xs =>
      show max_fold coordinates x xs ∈ x :: xs
      rcases max_fold_mem coordinates xs x with h' | h'
      · rw [h']
        exact List.mem_cons_self _ _
      · exact List.mem_cons_of_mem _ h'

/-- `max(population, key=fitness)` dominates every member's fitness. -/
theorem max_by_fitness_ge (coordinates : List Coord) (population : List (List ℕ)) :
    ∀ y ∈ population, fitness coordinates y ≤ best_fitness coordinates population := by
  intro y hy
  cases population with
  | nil => exact absurd hy (List.not_mem_nil y)
  | cons x xs =>
      show fitness coordinates y ≤ fitness coordinates (max_fold coordinates x xs)
      obtain ⟨h1, h2⟩ := max_fold_ge coordinates xs x
      rcases List.mem_cons.mp hy with rfl | hy
      · exact h1
      · exact h2 y hy

/-- The crossover bounds built from any raw draws are valid:
`start < stop ≤ num_sensors`, matching the ranges of
`randint(0, num_sensors - 1)` and `randint(start + 1, num_sensors)`. -/
theorem xo_bounds_valid (num_sensors : ℕ) (raw : ℕ × ℕ) (hn : 1 ≤ num_sensors) :
    (xo_bounds num_sensors raw).1 < (xo_bounds num_sensors raw).2 ∧
    (xo_bounds num_sensors raw).2 ≤ num_sensors := by
  show raw.1 % num_sensors < raw.1 % num_sensors + 1
      + raw.2 % (num_sensors - raw.1 % num_sensors) ∧
    raw.1 % num_sensors + 1 + raw.2 % (num_sensors - raw.1 % num_sensors) ≤ num_sensors
  have h1 : raw.1 % num_sensors < num_sensors := Nat.mod_lt _ (by omega)
  have h2 : raw.2 % (num_sensors - raw.1 % num_sensors) <
      num_sensors - raw.1 % num_sensors := Nat.mod_lt _ (by omega)
  constructor
  · omega
  · omega

/-- Any slot of the weighted selection pool holds a population member. -/
theorem weighted_choices_mem (population : List (List ℕ)) (population_size : ℕ)
    (d : GenDraws) (k : ℕ) (hpop : population ≠ []) (hk : k < population_size) :
    (weighted_choices population population_size d).getD k [] ∈ population := by
  have hlpos : 0 < population.length := List.length_pos.mpr hpop
  unfold weighted_choices
  rw [List.getD_eq_getElem _ _ (by simpa using hk), List.getElem_map, List.getElem_range]
  rw [List.getD_eq_getElem _ _ (Nat.mod_lt _ hlpos)]
  exact List.getElem_mem _

/-- A generation step keeps the population size. -/
theorem ga_step_length (coordinates : List Coord) (population_size : ℕ)
    (mutation_rate : ℝ) (population : List (List ℕ)) (d : GenDraws)
    (hlen : population.length = population_size) :
    (ga_step coordinates population_size mutation_rate population d).length
      = population_size := by
  unfold ga_step elite_size
  rw [List.length_append, List.length_take, List.length_map, List.length_range,
    (sort_by_fitness_perm coordinates population).length_eq, hlen]
  have : population_size / 10 ≤ population_size := Nat.div_le_self _ _
  omega

/-- The next generation starts with the `elite_size` fittest individuals
of the sorted current population. -/
theorem ga_step_take_elite (coordinates : List Coord) (population_size : ℕ)
    (mutation_rate : ℝ) (population : List (List ℕ)) (d : GenDraws)
    (hlen : elite_size population_size ≤ population.length) :
    (ga_step coordinates population_size mutation_rate population d).take
        (elite_size population_size)
      = (sort_by_fitness coordinates population).take (elite_size population_size) := by
  unfold ga_step
  rw [List.take_left']
  rw [List.length_take, (sort_by_fitness_perm coordinates population).length_eq]
  omega

/-- A generation step preserves the permutation invariant of every
individual. -/
theorem ga_step_perm (coordinates : List Coord) (population_size : ℕ)
    (mutation_rate : ℝ) (population : List (List ℕ)) (d : GenDraws)
    (hn : 1 ≤ coordinates.length) (hps : 1 ≤ population_size)
    (hpop : population ≠ [])
    (hall : ∀ x ∈ population, x.Perm (List.range coordinates.length)) :
    ∀ x ∈ ga_step coordinates population_size mutation_rate population d,
      x.Perm (List.range coordinates.length) := by
  intro x hx
  unfold ga_step at hx
  rw [List.mem_append] at hx
  rcases hx with hx | hx
  · have hmem : x ∈ sort_by_fitness coordinates population := List.mem_of_mem_take hx
    exact hall x ((sort_by_fitness_perm coordinates population).mem_iff.mp hmem)
  · obtain ⟨j, _, rfl⟩ := List.mem_map.mp hx
    unfold make_child
    apply mutate_perm
    obtain ⟨hss, hsn⟩ := xo_bounds_valid coordinates.length (d.xo j) hn
    refine crossover_perm _ _ _ _ _ ?_ ?_ hss hsn
    · exact hall _ (weighted_choices_mem population population_size d _ hpop
        (Nat.mod_lt _ (by omega)))
    · exact hall _ (weighted_choices_mem population population_size d _ hpop
        (Nat.mod_lt _ (by omega)))

/-- The whole generation loop preserves population size and the
permutation invariant. -/
theorem run_ga_inv (coordinates : List Coord) (population_size : ℕ)
    (mutation_rate : ℝ) (hn : 1 ≤ coordinates.length) (hps : 1 ≤ population_size) :
    ∀ (generations : ℕ) (population : List (List ℕ)) (draws : ℕ → GenDraws),
      population.length = population_size →
      (∀ x ∈ population, x.Perm (List.range coordinates.length)) →
      (run_ga coordinates population_size mutation_rate generations
          population draws).length = population_size ∧
      ∀ x ∈ run_ga coordinates population_size mutation_rate generations population draws,
        x.Perm (List.range coordinates.length) := by
  intro generations
  induction generations with
  | zero =>
      intro population draws hlen hall
      exact ⟨hlen, hall⟩
  | succ g ih =>
      intro population draws hlen hall
      have hpop : population ≠ [] := by
        intro hnil
        rw [hnil] at hlen
        simp at hlen
        omega
      exact ih (ga_step coordinates population_size mutation_rate population (draws 0))
        (fun k => draws (k + 1))
        (ga_step_length coordinates population_size mutation_rate population (draws 0) hlen)
        (ga_step_perm coordinates population_size mutation_rate population (draws 0)
          hn hps hpop hall)

/-- The returned best individual is a member of the final population and
hence a permutation of the node indices. -/
theorem genetic_algorithm_perm (coordinates : List Coord)
    (population_size generations : ℕ) (mutation_rate : ℝ)
    (init : ℕ → List ℕ) (draws : ℕ → GenDraws)
    (hn : 1 ≤ coordinates.length) (hps : 1 ≤ population_size)
    (hinit : ∀ i, (init i).Perm (List.range coordinates.length)) :
    (genetic_algorithm coordinates population_size generations mutation_rate
      init draws).Perm (List.range coordinates.length) := by
  unfold genetic_algorithm
  have hlen0 : ((List.range population_size).map init).length = population_size := by
    simp
  have hall0 : ∀ x ∈ (List.range population_size).map init,
      x.Perm (List.range coordinates.length) := by
    intro x hx
    obtain ⟨i, _, rfl⟩ := List.mem_map.mp hx
    exact hinit i
  obtain ⟨hlen, hall⟩ := run_ga_inv coordinates population_size mutation_rate hn hps
    generations ((List.range population_size).map init) draws hlen0 hall0
  apply hall
  apply max_by_fitness_mem
  intro hnil
  rw [hnil] at hlen
  simp at hlen
  omega

/-- The scaled unit square of the spec's concrete scenario. -/
noncomputable def sq_coords : List Coord := [(0, 0), (10, 0), (10, 10), (0, 10)]

theorem sqrt_100 : Real.sqrt 100 = 10 := by
  rw [show (100 : ℝ) = 10 ^ 2 by norm_num]
  exact Real.sqrt_sq (by norm_num)

theorem sqrt_200_gt_10 : 10 < Real.sqrt 200 := by
  have h := Real.sqrt_lt_sqrt (by norm_num : (0:ℝ) ≤ 100) (by norm_num : (100:ℝ) < 200)
  rwa [sqrt_100] at h

theorem scan_nearest_nil_eq (c : List Coord) (cur : ℕ) (acc : Option (ℕ × ℝ)) :
    scan_nearest c cur [] acc = acc := rfl

theorem scan_nearest_cons_eq (c : List Coord) (cur x : ℕ) (rest : List ℕ)
    (acc : Option (ℕ × ℝ)) :
    scan_nearest c cur (x :: rest) acc
      = scan_nearest c cur rest (scan_step c cur x acc) := rfl

theorem scan_step_none_eq (c : List Coord) (cur nb : ℕ) :
    scan_step c cur nb none
      = some (nb, euclidean_distance (c.getD cur (0, 0)) (c.getD nb (0, 0))) := rfl

theorem scan_step_some_eq (c : List Coord) (cur nb m : ℕ) (md : ℝ) :
    scan_step c cur nb (some (m, md))
      = if euclidean_distance (c.getD cur (0, 0)) (c.getD nb (0, 0)) < md
        then some (nb, euclidean_distance (c.getD cur (0, 0)) (c.getD nb (0, 0)))
        else some (m, md) := rfl

theorem greedy_go_succ_eq (c : List Coord) (fuel : ℕ) (unvisited : List ℕ)
    (current : ℕ) (route : List ℕ) :
    greedy_go c (fuel + 1) unvisited current route
      = match scan_nearest c current unvisited none with
        | none => route
        | some (m, _) => greedy_go c fuel (unvisited.erase m) m (route ++ [m]) := rfl

theorem sq_dist_0_1 : euclidean_distance (sq_coords.getD 0 (0, 0))
    (sq_coords.getD 1 (0, 0)) = 10 := by
  show euclidean_distance ((0 : ℝ), (0 : ℝ)) ((10 : ℝ), (0 : ℝ)) = 10
  unfold euclidean_distance
  norm_num [sqrt_100]

theorem sq_dist_0_2 : euclidean_distance (sq_coords.getD 0 (0, 0))
    (sq_coords.getD 2 (0, 0)) = Real.sqrt 200 := by
  show euclidean_distance ((0 : ℝ), (0 : ℝ)) ((10 : ℝ), (10 : ℝ)) = Real.sqrt 200
  unfold euclidean_distance
  norm_num

theorem sq_dist_0_3 : euclidean_distance (sq_coords.getD 0 (0, 0))
    (sq_coords.getD 3 (0, 0)) = 10 := by
  show euclidean_distance ((0 : ℝ), (0 : ℝ)) ((0 : ℝ), (10 : ℝ)) = 10
  unfold euclidean_distance
  norm_num [sqrt_100]

theorem sq_dist_1_2 : euclidean_distance (sq_coords.getD 1 (0, 0))
    (sq_coords.getD 2 (0, 0)) = 10 := by
  show euclidean_distance ((10 : ℝ), (0 : ℝ)) ((10 : ℝ), (10 : ℝ)) = 10
  unfold euclidean_distance
  norm_num [sqrt_100]

theorem sq_dist_1_3 : euclidean_distance (sq_coords.getD 1 (0, 0))
    (sq_coords.getD 3 (0, 0)) = Real.sqrt 200 := by
  show euclidean_distance ((10 : ℝ), (0 : ℝ)) ((0 : ℝ), (10 : ℝ)) = Real.sqrt 200
  unfold euclidean_distance
  norm_num

theorem sq_dist_2_3 : euclidean_distance (sq_coords.getD 2 (0, 0))
    (sq_coords.getD 3 (0, 0)) = 10 := by
  show euclidean_distance ((10 : ℝ), (10 : ℝ)) ((0 : ℝ), (10 : ℝ)) = 10
  unfold euclidean_distance
  norm_num [sqrt_100]

theorem sq_dist_3_0 : euclidean_distance (sq_coords.getD 3 (0, 0))
    (sq_coords.getD 0 (0, 0)) = 10 := by
  show euclidean_distance ((0 : ℝ), (10 : ℝ)) ((0 : ℝ), (0 : ℝ)) = 10
  unfold euclidean_distance
  norm_num [sqrt_100]

theorem not_sqrt200_lt_10 : ¬ Real.sqrt 200 < 10 :=
  not_lt.mpr (le_of_lt sqrt_200_gt_10)

/-- First greedy scan on the square: node 1 at distance 10 wins (the tie
with node 3 is broken by first encounter). -/
theorem sq_scan_from_0 : scan_nearest sq_coords 0 [1, 2, 3] none = some (1, 10) := by
  rw [scan_nearest_cons_eq, scan_step_none_eq, sq_dist_0_1,
    scan_nearest_cons_eq, scan_step_some_eq, sq_dist_0_2, if_neg not_sqrt200_lt_10,
    scan_nearest_cons_eq, scan_step_some_eq, sq_dist_0_3, if_neg (lt_irrefl 10),
    scan_nearest_nil_eq]

/-- Second greedy scan: from node 1, node 2 wins. -/
theorem sq_scan_from_1 : scan_nearest sq_coords 1 [2, 3] none = some (2, 10) := by
  rw [scan_nearest_cons_eq, scan_step_none_eq, sq_dist_1_2,
    scan_nearest_cons_eq, scan_step_some_eq, sq_dist_1_3, if_neg not_sqrt200_lt_10,
    scan_nearest_nil_eq]

/-- Third greedy scan: from node 2, only node 3 remains. -/
theorem sq_scan_from_2 : scan_nearest sq_coords 2 [3] none = some (3, 10) := by
  rw [scan_nearest_cons_eq, scan_step_none_eq, sq_dist_2_3, scan_nearest_nil_eq]

/-- The greedy run on the square, step by step. -/
theorem sq_greedy_route : greedy_route_optimizer sq_coords = [0, 1, 2, 3] := by
  show greedy_go sq_coords (3 + 1) [1, 2, 3] 0 [0] = [0, 1, 2, 3]
  rw [greedy_go_succ_eq, sq_scan_from_0]
  show greedy_go sq_coords (2 + 1) [2, 3] 1 [0, 1] = [0, 1, 2, 3]
  rw [greedy_go_succ_eq, sq_scan_from_1]
  show greedy_go sq_coords (1 + 1) [3] 2 [0, 1, 2] = [0, 1, 2, 3]
  rw [greedy_go_succ_eq, sq_scan_from_2]
  show greedy_go sq_coords (0 + 1) [] 3 [0, 1, 2, 3] = [0, 1, 2, 3]
  rw [greedy_go_succ_eq, scan_nearest_nil_eq]

/-- The perimeter tour of the square has length 40. -/
theorem sq_len_0123 : calculate_total_distance [0, 1, 2, 3] sq_coords = 40 := by
  unfold calculate_total_distance
  rw [if_neg (by norm_num)]
  show euclidean_distance (sq_coords.getD 0 (0, 0)) (sq_coords.getD 1 (0, 0))
      + (euclidean_distance (sq_coords.getD 1 (0, 0)) (sq_coords.getD 2 (0, 0))
      + (euclidean_distance (sq_coords.getD 2 (0, 0)) (sq_coords.getD 3 (0, 0)) + 0))
      + euclidean_distance (sq_coords.getD 3 (0, 0)) (sq_coords.getD 0 (0, 0)) = 40
  rw [sq_dist_0_1, sq_dist_1_2, sq_dist_2_3, sq_dist_3_0]
  norm_num

/-- C8: on the scaled unit square `[(0,0), (10,0), (10,10), (0,10)]` the
greedy optimizer starting at node 0 returns `[0, 1, 2, 3]` (the distance
tie between nodes 1 and 3 is broken in favour of node 1, the first
encountered in scan order), and the tour length of that route is exactly
`40`. -/
theorem C8_greedy_square_route_and_length :
    greedy_route_optimizer sq_coords = [0, 1, 2, 3] ∧
    calculate_total_distance [0, 1, 2, 3] sq_coords = 40 :=
  ⟨sq_greedy_route, sq_len_0123⟩

theorem euclidean_distance_self (p : Coord) : euclidean_distance p p = 0 := by
  unfold euclidean_distance
  simp

/-- C6: the claim is right and the code wrong.  `fitness` is
`1 / calculate_total_distance(...)` with no special case, so a zero tour
length (e.g. the single-coordinate set, whose only tour `[0]` has length
0) makes Python raise `ZeroDivisionError` instead of returning a large
finite sentinel: the `Option`-valued model returns `none`. -/
theorem C6_fitness_faults_on_zero_tour :
    calculate_total_distance [0] [((5 : ℝ), (5 : ℝ))] = 0 ∧
    fitness_opt [((5 : ℝ), (5 : ℝ))] [0] = none ∧
    calculate_total_distance [0, 1] [((0 : ℝ), (0 : ℝ)), ((0 : ℝ), (0 : ℝ))] = 0 ∧
    fitness_opt [((0 : ℝ), (0 : ℝ)), ((0 : ℝ), (0 : ℝ))] [0, 1] = none := by
  have h1 : calculate_total_distance [0] [((5 : ℝ), (5 : ℝ))] = 0 := by
    unfold calculate_total_distance
    rw [if_pos (by norm_num)]
  have h2 : calculate_total_distance [0, 1] [((0 : ℝ), (0 : ℝ)), ((0 : ℝ), (0 : ℝ))] = 0 := by
    unfold calculate_total_distance
    rw [if_neg (by norm_num)]
    show euclidean_distance ((0 : ℝ), (0 : ℝ)) ((0 : ℝ), (0 : ℝ)) + 0
        + euclidean_distance ((0 : ℝ), (0 : ℝ)) ((0 : ℝ), (0 : ℝ)) = 0
    rw [euclidean_distance_self]
    norm_num
  refine ⟨h1, ?_, h2, ?_⟩
  · unfold fitness_opt
    rw [if_pos h1]
  · unfold fitness_opt
    rw [if_pos h2]

/-- C7: degenerate behaviour of the code.  For `N = 0` the greedy
optimizer returns `[0]`, not the empty route the claim demands (node 0
does not exist).  For `N = 1` greedy correctly returns `[0]` with tour
length 0, and crossover is a value-level no-op, but the genetic
algorithm faults: `fitness` divides by the zero tour length
(`fitness_opt = none` models the `ZeroDivisionError`), and a triggered
mutation calls `random.sample(range(1), 2)`, which raises `ValueError`
(`sample2 1 _ _ = none`). -/
theorem C7_degenerate_inputs :
    greedy_route_optimizer ([] : List Coord) = [0] ∧
    greedy_route_optimizer [((5 : ℝ), (5 : ℝ))] = [0] ∧
    calculate_total_distance [0] [((5 : ℝ), (5 : ℝ))] = 0 ∧
    crossover 1 [0] [0] 0 1 = [0] ∧
    fitness_opt [((5 : ℝ), (5 : ℝ))] [0] = none ∧
    sample2 1 0 0 = none := by
  have h1 : calculate_total_distance [0] [((5 : ℝ), (5 : ℝ))] = 0 := by
    unfold calculate_total_distance
    rw [if_pos (by norm_num)]
  refine ⟨rfl, rfl, h1, by decide, ?_, by decide⟩
  unfold fitness_opt
  rw [if_pos h1]

/-- Crossing an individual over with itself reproduces it exactly: the
non-slice elements of `parent2 = parent1` refill their own positions in
order. -/
theorem crossover_self (n : ℕ) (p : List ℕ) (start stop : ℕ)
    (hp : p.Perm (List.range n)) (hss : start < stop) (hsn : stop ≤ n) :
    crossover n p p start stop = p := by
  have hlen : p.length = n := hp.length_eq.trans (List.length_range n)
  have hnd : p.Nodup := hp.symm.nodup (List.nodup_range n)
  have hdrop : (p.drop start).drop (stop - start) = p.drop stop := by
    rw [List.drop_drop]
    congr 1
    omega
  have hsplit : p = p.take start ++ (xslice p start stop ++ p.drop stop) := by
    conv_lhs => rw [← List.take_append_drop start p]
    congr 1
    unfold xslice
    rw [← hdrop, List.take_append_drop]
  have hnd' : (p.take start ++ (xslice p start stop ++ p.drop stop)).Nodup := by
    rw [← hsplit]
    exact hnd
  rw [List.nodup_append] at hnd'
  obtain ⟨hndA, hndSB, hdisjA⟩ := hnd'
  rw [List.nodup_append] at hndSB
  obtain ⟨hndS, hndB, hdisjS⟩ := hndSB
  have hrem : xremaining p p start stop = p.take start ++ p.drop stop := by
    have hcong : xremaining p p start stop
        = (p.take start ++ (xslice p start stop ++ p.drop stop)).filter
          (fun item => decide (item ∉ xslice p start stop)) := by
      unfold xremaining
      exact congrArg _ hsplit
    rw [hcong, List.filter_append, List.filter_append]
    have hA : (p.take start).filter
        (fun item => decide (item ∉ xslice p start stop)) = p.take start := by
      rw [List.filter_eq_self]
      intro a ha
      simp only [decide_eq_true_eq]
      intro haS
      exact hdisjA ha (List.mem_append_left _ haS)
    have hS : (xslice p start stop).filter
        (fun item => decide (item ∉ xslice p start stop)) = [] := by
      rw [List.filter_eq_nil_iff]
      intro a ha
      simp only [decide_eq_true_eq, not_not]
      exact ha
    have hB : (p.drop stop).filter
        (fun item => decide (item ∉ xslice p start stop)) = p.drop stop := by
      rw [List.filter_eq_self]
      intro a ha
      simp only [decide_eq_true_eq]
      intro haS
      exact hdisjS haS ha
    rw [hA, hS, hB, List.nil_append]
  have htakelen : (p.take start).length = start := by
    rw [List.length_take]
    omega
  rw [crossover_structure n p p start stop hp hp hss hsn, hrem,
    List.take_left' htakelen, List.drop_left' htakelen, List.append_assoc]
  exact hsplit.symm

/-- C5: `calculate_total_distance` equals the sum of Euclidean distances
over consecutive pairs of the route plus the wrap-around edge from the
last node back to the first (the spec's zip-with-rotation formulation),
and returns 0 for every route of length < 2. -/
theorem C5_tour_length_definition (route : List ℕ) (coordinates : List Coord) :
    calculate_total_distance route coordinates = tour_length_spec route coordinates ∧
    (route.length < 2 → calculate_total_distance route coordinates = 0) := by
  refine ⟨calculate_eq_spec route coordinates, fun h => ?_⟩
  unfold calculate_total_distance
  rw [if_pos h]

/-- Concrete instance of `C5_tour_length_definition` on a length-1 route. -/
theorem C5_tour_length_definition_witness :
    calculate_total_distance [7] [((1 : ℝ), (2 : ℝ))]
      = tour_length_spec [7] [((1 : ℝ), (2 : ℝ))] ∧
    calculate_total_distance [7] [((1 : ℝ), (2 : ℝ))] = 0 :=
  ⟨(C5_tour_length_definition [7] [((1 : ℝ), (2 : ℝ))]).1,
    (C5_tour_length_definition [7] [((1 : ℝ), (2 : ℝ))]).2 (by norm_num)⟩

/-- A permutation of `{0, 1}` is one of the two concrete routes. -/
theorem perm_range_two (r : List ℕ) (h : r.Perm (List.range 2)) :
    r = [0, 1] ∨ r = [1, 0] := by
  have hlen : r.length = 2 := h.length_eq
  obtain ⟨a, b, rfl⟩ : ∃ a b, r = [a, b] := by
    cases r with
    | nil => simp at hlen
    | cons a t =>
        cases t with
        | nil => simp at hlen
        | cons b t2 =>
            cases t2 with
            | nil => exact ⟨a, b, rfl⟩
            | cons c t3 => simp at hlen
  have ha : a ∈ List.range 2 := h.mem_iff.mp (List.mem_cons_self _ _)
  have hb : b ∈ List.range 2 :=
    h.mem_iff.mp (List.mem_cons_of_mem _ (List.mem_cons_self _ _))
  have hnd : ([a, b] : List ℕ).Nodup := h.symm.nodup (by decide)
  have hab : a ≠ b := by
    simp only [List.nodup_cons, List.mem_singleton, List.nodup_nil, and_true] at hnd
    exact hnd.1
  rw [List.mem_range] at ha hb
  rcases (by omega : a = 0 ∨ a = 1) with rfl | rfl
  · left
    have : b = 1 := by omega
    rw [this]
  · right
    have : b = 0 := by omega
    rw [this]

/-- The two-node segment used to instantiate witnesses. -/
noncomputable def seg_coords : List Coord := [(0, 0), (10, 0)]

theorem seg_dist_0_1 : euclidean_distance (seg_coords.getD 0 (0, 0))
    (seg_coords.getD 1 (0, 0)) = 10 := by
  show euclidean_distance ((0 : ℝ), (0 : ℝ)) ((10 : ℝ), (0 : ℝ)) = 10
  unfold euclidean_distance
  norm_num [sqrt_100]

theorem seg_dist_1_0 : euclidean_distance (seg_coords.getD 1 (0, 0))
    (seg_coords.getD 0 (0, 0)) = 10 := by
  show euclidean_distance ((10 : ℝ), (0 : ℝ)) ((0 : ℝ), (0 : ℝ)) = 10
  unfold euclidean_distance
  norm_num [sqrt_100]

theorem seg_len_01 : calculate_total_distance [0, 1] seg_coords = 20 := by
  unfold calculate_total_distance
  rw [if_neg (by norm_num)]
  show euclidean_distance (seg_coords.getD 0 (0, 0)) (seg_coords.getD 1 (0, 0)) + 0
      + euclidean_distance (seg_coords.getD 1 (0, 0)) (seg_coords.getD 0 (0, 0)) = 20
  rw [seg_dist_0_1, seg_dist_1_0]
  norm_num

theorem seg_len_10 : calculate_total_distance [1, 0] seg_coords = 20 := by
  unfold calculate_total_distance
  rw [if_neg (by norm_num)]
  show euclidean_distance (seg_coords.getD 1 (0, 0)) (seg_coords.getD 0 (0, 0)) + 0
      + euclidean_distance (seg_coords.getD 0 (0, 0)) (seg_coords.getD 1 (0, 0)) = 20
  rw [seg_dist_0_1, seg_dist_1_0]
  norm_num

/-- C4 counterexample: on the all-coincident pair of coordinates
(`N = 2`), every permutation route has tour length 0, so the genetic
algorithm's very first fitness evaluation divides by zero and Python
raises `ZeroDivisionError` instead of returning any route; the claim's
guarantee over every `N ≥ 2` coordinate set therefore fails. -/
theorem C4_counterexample_coincident_pair :
    2 ≤ ([((0 : ℝ), (0 : ℝ)), ((0 : ℝ), (0 : ℝ))] : List Coord).length ∧
    fitness_opt [((0 : ℝ), (0 : ℝ)), ((0 : ℝ), (0 : ℝ))] [0, 1] = none ∧
    fitness_opt [((0 : ℝ), (0 : ℝ)), ((0 : ℝ), (0 : ℝ))] [1, 0] = none := by
  have hd : euclidean_distance ((0 : ℝ), (0 : ℝ)) ((0 : ℝ), (0 : ℝ)) = 0 :=
    euclidean_distance_self _
  have h1 : calculate_total_distance [0, 1] [((0 : ℝ), (0 : ℝ)), ((0 : ℝ), (0 : ℝ))] = 0 := by
    unfold calculate_total_distance
    rw [if_neg (by norm_num)]
    show euclidean_distance ((0 : ℝ), (0 : ℝ)) ((0 : ℝ), (0 : ℝ)) + 0
        + euclidean_distance ((0 : ℝ), (0 : ℝ)) ((0 : ℝ), (0 : ℝ)) = 0
    rw [hd]
    norm_num
  have h2 : calculate_total_distance [1, 0] [((0 : ℝ), (0 : ℝ)), ((0 : ℝ), (0 : ℝ))] = 0 := by
    unfold calculate_total_distance
    rw [if_neg (by norm_num)]
    show euclidean_distance ((0 : ℝ), (0 : ℝ)) ((0 : ℝ), (0 : ℝ)) + 0
        + euclidean_distance ((0 : ℝ), (0 : ℝ)) ((0 : ℝ), (0 : ℝ)) = 0
    rw [hd]
    norm_num
  refine ⟨by norm_num, ?_, ?_⟩
  · unfold fitness_opt
    rw [if_pos h1]
  · unfold fitness_opt
    rw [if_pos h2]

/-- C4 (amended): for every coordinate set with `N ≥ 2` on which no
permutation tour has length zero (so the fitness evaluations cannot
fault — see the coincident counterexample), the greedy route and the
genetic-algorithm route are valid permutations of `{0..N-1}` and both
tour lengths are nonnegative. -/
theorem C4_routes_valid_permutations (coordinates : List Coord)
    (population_size generations : ℕ) (mutation_rate : ℝ)
    (init : ℕ → List ℕ) (draws : ℕ → GenDraws)
    (hn : 2 ≤ coordinates.length) (hps : 1 ≤ population_size)
    (hinit : ∀ i, (init i).Perm (List.range coordinates.length))
    (_hpos : ∀ route : List ℕ, route.Perm (List.range coordinates.length) →
      calculate_total_distance route coordinates ≠ 0) :
    (greedy_route_optimizer coordinates).Perm (List.range coordinates.length) ∧
    (genetic_algorithm coordinates population_size generations mutation_rate
      init draws).Perm (List.range coordinates.length) ∧
    0 ≤ calculate_total_distance (greedy_route_optimizer coordinates) coordinates ∧
    0 ≤ calculate_total_distance
      (genetic_algorithm coordinates population_size generations mutation_rate init draws)
      coordinates :=
  ⟨greedy_route_optimizer_perm coordinates (by omega),
    genetic_algorithm_perm coordinates population_size generations mutation_rate
      init draws (by omega) hps hinit,
    calculate_total_distance_nonneg _ _,
    calculate_total_distance_nonneg _ _⟩

/-- A constant draw stream used by concrete instances. -/
noncomputable def triv_draws : GenDraws where
  pool := fun _ => 0
  par := fun _ => (0, 0)
  xo := fun _ => (0, 0)
  mr := fun _ => 0
  mpos := fun _ => (0, 0)

/-- Concrete instance of `C4_routes_valid_permutations` on the two-node
segment with one individual and zero generations. -/
theorem C4_routes_valid_permutations_witness :
    (greedy_route_optimizer seg_coords).Perm (List.range seg_coords.length) ∧
    (genetic_algorithm seg_coords 1 0 0 (fun _ => [0, 1])
      (fun _ => triv_draws)).Perm (List.range seg_coords.length) ∧
    0 ≤ calculate_total_distance (greedy_route_optimizer seg_coords) seg_coords ∧
    0 ≤ calculate_total_distance
      (genetic_algorithm seg_coords 1 0 0 (fun _ => [0, 1])
        (fun _ => triv_draws)) seg_coords := by
  have hlen : seg_coords.length = 2 := rfl
  refine C4_routes_valid_permutations seg_coords 1 0 0 _ _ (by rw [hlen]) (le_refl 1)
    (fun i => by rw [hlen]; decide) ?_
  intro route hroute
  rw [hlen] at hroute
  rcases perm_range_two route hroute with rfl | rfl
  · rw [seg_len_01]
    norm_num
  · rw [seg_len_10]
    norm_num

/-- Draw stream in which every weighted draw picks slot 0, every
crossover slice is `[0, 1)`, and every mutation triggers
(`random()` value 0) swapping positions 1 and 2. -/
noncomputable def mut_draws : GenDraws where
  pool := fun _ => 0
  par := fun _ => (0, 0)
  xo := fun _ => (0, 0)
  mr := fun _ => 0
  mpos := fun _ => (1, 1)

theorem run_ga_zero_eq (c : List Coord) (ps : ℕ) (r : ℝ) (pop : List (List ℕ))
    (draws : ℕ → GenDraws) : run_ga c ps r 0 pop draws = pop := rfl

theorem run_ga_succ_eq (c : List Coord) (ps : ℕ) (r : ℝ) (g : ℕ) (pop : List (List ℕ))
    (draws : ℕ → GenDraws) :
    run_ga c ps r (g + 1) pop draws
      = run_ga c ps r g (ga_step c ps r pop (draws 0)) (fun k => draws (k + 1)) := rfl

/-- Under `mut_draws` every child of a square-coordinate generation is
its (self-crossed) first parent with positions 1 and 2 swapped. -/
theorem make_child_eval_sq (population_size : ℕ) (pool : List (List ℕ)) (j : ℕ)
    (p : List ℕ) (hp : pool.getD 0 [] = p) (hperm : p.Perm (List.range 4)) :
    make_child sq_coords population_size 1 pool mut_draws j = swapL p 1 2 := by
  unfold make_child
  show mutate 4 (crossover 4 (pool.getD (0 % population_size) [])
      (pool.getD (0 % population_size) []) 0 1) 1 0 (1, 1) = swapL p 1 2
  rw [Nat.zero_mod, hp, crossover_self 4 p 0 1 hperm (by omega) (by omega)]
  unfold mutate
  rw [if_pos (by norm_num : (0 : ℝ) < 1)]
  rfl

/-- One `mut_draws` generation of a single-individual square population. -/
theorem ga_step_sq_single (p : List ℕ) (hperm : p.Perm (List.range 4)) :
    ga_step sq_coords 1 1 [p] mut_draws = [swapL p 1 2] := by
  unfold ga_step
  show (sort_by_fitness sq_coords [p]).take 0
      ++ (List.range 1).map (make_child sq_coords 1 1
          (weighted_choices [p] 1 mut_draws) mut_draws) = [swapL p 1 2]
  rw [List.take_zero, List.nil_append, show List.range 1 = [0] from rfl,
    List.map_cons, List.map_nil, make_child_eval_sq 1 (weighted_choices [p] 1 mut_draws) 0 p rfl hperm]

/-- One `mut_draws` generation of the two-copy square population. -/
theorem ga_step_sq_two :
    ga_step sq_coords 2 1 [[0, 1, 2, 3], [0, 1, 2, 3]] mut_draws
      = [[0, 2, 1, 3], [0, 2, 1, 3]] := by
  unfold ga_step
  show (sort_by_fitness sq_coords [[0, 1, 2, 3], [0, 1, 2, 3]]).take 0
      ++ (List.range 2).map (make_child sq_coords 2 1
          (weighted_choices [[0, 1, 2, 3], [0, 1, 2, 3]] 2 mut_draws) mut_draws)
      = [[0, 2, 1, 3], [0, 2, 1, 3]]
  rw [List.take_zero, List.nil_append, show List.range 2 = [0, 1] from rfl,
    List.map_cons, List.map_cons, List.map_nil,
    make_child_eval_sq 2 (weighted_choices [[0, 1, 2, 3], [0, 1, 2, 3]] 2 mut_draws) 0 [0, 1, 2, 3] rfl (by decide),
    make_child_eval_sq 2 (weighted_choices [[0, 1, 2, 3], [0, 1, 2, 3]] 2 mut_draws) 1 [0, 1, 2, 3] rfl (by decide),
    show swapL [0, 1, 2, 3] 1 2 = [0, 2, 1, 3] from by decide]

/-- One `mut_draws` generation of the five-copy square population. -/
theorem ga_step_sq_five :
    ga_step sq_coords 5 1 (List.replicate 5 [0, 1, 2, 3]) mut_draws
      = List.replicate 5 [0, 2, 1, 3] := by
  unfold ga_step
  show (sort_by_fitness sq_coords (List.replicate 5 [0, 1, 2, 3])).take 0
      ++ (List.range 5).map (make_child sq_coords 5 1
          (weighted_choices (List.replicate 5 [0, 1, 2, 3]) 5 mut_draws) mut_draws)
      = List.replicate 5 [0, 2, 1, 3]
  rw [List.take_zero, List.nil_append, show List.range 5 = [0, 1, 2, 3, 4] from rfl,
    List.map_cons, List.map_cons, List.map_cons, List.map_cons, List.map_cons,
    List.map_nil,
    make_child_eval_sq 5 (weighted_choices (List.replicate 5 [0, 1, 2, 3]) 5 mut_draws) 0 [0, 1, 2, 3] rfl (by decide),
    make_child_eval_sq 5 (weighted_choices (List.replicate 5 [0, 1, 2, 3]) 5 mut_draws) 1 [0, 1, 2, 3] rfl (by decide),
    make_child_eval_sq 5 (weighted_choices (List.replicate 5 [0, 1, 2, 3]) 5 mut_draws) 2 [0, 1, 2, 3] rfl (by decide),
    make_child_eval_sq 5 (weighted_choices (List.replicate 5 [0, 1, 2, 3]) 5 mut_draws) 3 [0, 1, 2, 3] rfl (by decide),
    make_child_eval_sq 5 (weighted_choices (List.replicate 5 [0, 1, 2, 3]) 5 mut_draws) 4 [0, 1, 2, 3] rfl (by decide),
    show swapL [0, 1, 2, 3] 1 2 = [0, 2, 1, 3] from by decide]
  rfl

theorem sq_dist_2_1 : euclidean_distance (sq_coords.getD 2 (0, 0))
    (sq_coords.getD 1 (0, 0)) = 10 := by
  show euclidean_distance ((10 : ℝ), (10 : ℝ)) ((10 : ℝ), (0 : ℝ)) = 10
  unfold euclidean_distance
  norm_num [sqrt_100]

/-- The crossed tour of the square is strictly longer than the perimeter. -/
theorem sq_len_0213 : calculate_total_distance [0, 2, 1, 3] sq_coords
    = 20 + 2 * Real.sqrt 200 := by
  unfold calculate_total_distance
  rw [if_neg (by norm_num)]
  show euclidean_distance (sq_coords.getD 0 (0, 0)) (sq_coords.getD 2 (0, 0))
      + (euclidean_distance (sq_coords.getD 2 (0, 0)) (sq_coords.getD 1 (0, 0))
      + (euclidean_distance (sq_coords.getD 1 (0, 0)) (sq_coords.getD 3 (0, 0)) + 0))
      + euclidean_distance (sq_coords.getD 3 (0, 0)) (sq_coords.getD 0 (0, 0))
      = 20 + 2 * Real.sqrt 200
  rw [sq_dist_0_2, sq_dist_2_1, sq_dist_1_3, sq_dist_3_0]
  ring

theorem sq_fit_lt : fitness sq_coords [0, 2, 1, 3] < fitness sq_coords [0, 1, 2, 3] := by
  unfold fitness
  rw [sq_len_0213, sq_len_0123]
  have h : (40 : ℝ) < 20 + 2 * Real.sqrt 200 := by
    have := sqrt_200_gt_10
    linarith
  exact one_div_lt_one_div_of_lt (by norm_num) h

theorem max_by_fitness_pair_same (c : List Coord) (x : List ℕ) :
    max_by_fitness c [x, x] = x := by
  show (if fitness c x < fitness c x then x else x) = x
  exact ite_self x

/-- C3 counterexample: with `population_size = 2` the elite count
`int(2 * 0.1)` is 0, so nothing is carried over; in the run on the
square whose two initial shuffles are both `[0,1,2,3]` and whose first
generation mutates both children (swap of positions 1 and 2, mutation
rate 1), the best fitness strictly decreases from generation 0 to
generation 1. -/
theorem C3_counterexample_small_population :
    elite_size 2 = 0 ∧
    best_fitness sq_coords (ga_step sq_coords 2 1 [[0, 1, 2, 3], [0, 1, 2, 3]] mut_draws)
      < best_fitness sq_coords [[0, 1, 2, 3], [0, 1, 2, 3]] := by
  refine ⟨rfl, ?_⟩
  rw [ga_step_sq_two]
  unfold best_fitness
  rw [max_by_fitness_pair_same, max_by_fitness_pair_same]
  exact sq_fit_lt

/-- C3 (amended): once the population is large enough for at least one
elite (`population_size ≥ 10`, so `int(population_size * 0.1) ≥ 1`) —
and within the fault-free scope of positive tour lengths — the best
fitness never decreases across a generation step. -/
theorem C3_best_fitness_monotone (coordinates : List Coord) (population_size : ℕ)
    (mutation_rate : ℝ) (population : List (List ℕ)) (d : GenDraws)
    (hps : 10 ≤ population_size) (hlen : population.length = population_size)
    (_hpos : ∀ x ∈ population, 0 < calculate_total_distance x coordinates) :
    best_fitness coordinates population
      ≤ best_fitness coordinates
        (ga_step coordinates population_size mutation_rate population d) := by
  have he : 1 ≤ elite_size population_size := by
    unfold elite_size
    omega
  have hslen : (sort_by_fitness coordinates population).length = population_size :=
    (sort_by_fitness_perm coordinates population).length_eq.trans hlen
  obtain ⟨s0, stail, hs⟩ : ∃ s0 stail,
      sort_by_fitness coordinates population = s0 :: stail := by
    cases hsort : sort_by_fitness coordinates population with
    | nil =>
        rw [hsort] at hslen
        simp at hslen
        omega
    | cons a t => exact ⟨a, t, rfl⟩
  have hpair := sort_by_fitness_sorted coordinates population
  rw [hs, List.pairwise_cons] at hpair
  have hmax_mem : max_by_fitness coordinates population ∈ population := by
    apply max_by_fitness_mem
    intro hnil
    rw [hnil] at hlen
    simp at hlen
    omega
  have hmax_in_sorted : max_by_fitness coordinates population ∈ s0 :: stail := by
    rw [← hs]
    exact (sort_by_fitness_perm coordinates population).mem_iff.mpr hmax_mem
  have hle_s0 : best_fitness coordinates population ≤ fitness coordinates s0 := by
    unfold best_fitness
    rcases List.mem_cons.mp hmax_in_sorted with heq | hmem
    · rw [heq]
    · exact hpair.1 _ hmem
  have hs0_next : s0 ∈ ga_step coordinates population_size mutation_rate population d := by
    unfold ga_step
    apply List.mem_append_left
    rw [hs]
    obtain ⟨k, hk⟩ := Nat.exists_eq_add_of_le he
    rw [hk, Nat.add_comm 1 k, List.take_succ_cons]
    exact List.mem_cons_self _ _
  exact le_trans hle_s0 (max_by_fitness_ge coordinates _ s0 hs0_next)

/-- Concrete instance of `C3_best_fitness_monotone` on ten copies of the
segment tour. -/
theorem C3_best_fitness_monotone_witness :
    best_fitness seg_coords (List.replicate 10 [0, 1])
      ≤ best_fitness seg_coords
        (ga_step seg_coords 10 0 (List.replicate 10 [0, 1]) triv_draws) := by
  refine C3_best_fitness_monotone seg_coords 10 0 (List.replicate 10 [0, 1]) triv_draws
    (le_refl 10) (by simp) ?_
  intro x hx
  rw [List.eq_of_mem_replicate hx, seg_len_01]
  norm_num

/-- C2 counterexample: with `population_size = 5`, the code's
`elite_size = int(5 * 0.1)` is 0 while `ceil(5 * 0.1)` is 1; in the
five-copy square run under `mut_draws` every child mutates, so the
(unique, fittest) individual `[0,1,2,3]` appears nowhere in the next
generation — no top individual is copied at all. -/
theorem C2_counterexample_five :
    Nat.ceil ((5 : ℚ) * (1 / 10)) = 1 ∧
    elite_size 5 = 0 ∧
    [0, 1, 2, 3] ∈ List.replicate 5 ([0, 1, 2, 3] : List ℕ) ∧
    [0, 1, 2, 3] ∉ ga_step sq_coords 5 1 (List.replicate 5 [0, 1, 2, 3]) mut_draws := by
  refine ⟨?_, rfl, by decide, ?_⟩
  · rw [show (5 : ℚ) * (1 / 10) = 1 / 2 by norm_num, Nat.ceil_eq_iff (by norm_num)]
    norm_num
  · rw [ga_step_sq_five]
    intro hmem
    exact absurd (List.eq_of_mem_replicate hmem) (by decide)

/-- C2 (amended): every generation step copies exactly
`int(population_size * 0.1)` (i.e. `population_size / 10` by flooring,
not `ceil`) individuals unmodified into the next generation, namely the
top ones by fitness in descending order: the next generation's prefix of
that length is the prefix of the population stably sorted by descending
fitness. -/
theorem C2_elitism_floor_count (coordinates : List Coord) (population_size : ℕ)
    (mutation_rate : ℝ) (population : List (List ℕ)) (d : GenDraws)
    (hlen : population.length = population_size) :
    elite_size population_size = population_size / 10 ∧
    (ga_step coordinates population_size mutation_rate population d).take
        (elite_size population_size)
      = (sort_by_fitness coordinates population).take (elite_size population_size) ∧
    (sort_by_fitness coordinates population).Perm population ∧
    (sort_by_fitness coordinates population).Pairwise
      (fun a b => fitness coordinates b ≤ fitness coordinates a) :=
  ⟨rfl,
    ga_step_take_elite coordinates population_size mutation_rate population d
      (by rw [hlen]; exact Nat.div_le_self _ _),
    sort_by_fitness_perm coordinates population,
    sort_by_fitness_sorted coordinates population⟩

/-- Concrete instance of `C2_elitism_floor_count` on ten copies of the
segment tour. -/
theorem C2_elitism_floor_count_witness :
    elite_size 10 = 10 / 10 ∧
    (ga_step seg_coords 10 0 (List.replicate 10 [0, 1]) triv_draws).take (elite_size 10)
      = (sort_by_fitness seg_coords (List.replicate 10 [0, 1])).take (elite_size 10) ∧
    (sort_by_fitness seg_coords (List.replicate 10 [0, 1])).Perm
      (List.replicate 10 [0, 1]) ∧
    (sort_by_fitness seg_coords (List.replicate 10 [0, 1])).Pairwise
      (fun a b => fitness seg_coords b ≤ fitness seg_coords a) :=
  C2_elitism_floor_count seg_coords 10 0 (List.replicate 10 [0, 1]) triv_draws (by simp)

/-- C10: a reproduce step never modifies the individuals of the current
population: crossover builds a fresh child and mutation swaps only
inside that child, so each elite entry of the next generation is
element-wise equal to a member of the previous generation (the
corresponding entry of the fitness-sorted population). -/
theorem C10_elites_unmodified (coordinates : List Coord) (population_size : ℕ)
    (mutation_rate : ℝ) (population : List (List ℕ)) (d : GenDraws)
    (hlen : elite_size population_size ≤ population.length) :
    (ga_step coordinates population_size mutation_rate population d).take
        (elite_size population_size)
      = (sort_by_fitness coordinates population).take (elite_size population_size) ∧
    ∀ x ∈ (ga_step coordinates population_size mutation_rate population d).take
        (elite_size population_size), x ∈ population := by
  refine ⟨ga_step_take_elite coordinates population_size mutation_rate population d hlen,
    fun x hx => ?_⟩
  rw [ga_step_take_elite coordinates population_size mutation_rate population d hlen] at hx
  exact (sort_by_fitness_perm coordinates population).mem_iff.mp (List.mem_of_mem_take hx)

/-- Concrete instance of `C10_elites_unmodified` on ten copies of the
square tour with every mutation triggered. -/
theorem C10_elites_unmodified_witness :
    (ga_step sq_coords 10 1 (List.replicate 10 [0, 1, 2, 3]) mut_draws).take
        (elite_size 10)
      = (sort_by_fitness sq_coords (List.replicate 10 [0, 1, 2, 3])).take
        (elite_size 10) ∧
    ∀ x ∈ (ga_step sq_coords 10 1 (List.replicate 10 [0, 1, 2, 3]) mut_draws).take
        (elite_size 10), x ∈ List.replicate 10 [0, 1, 2, 3] :=
  C10_elites_unmodified sq_coords 10 1 (List.replicate 10 [0, 1, 2, 3]) mut_draws
    (by simp [elite_size])

/-- With `population_size = 1` there are no elites
(`int(1 * 0.1) = 0`); the sole member of the next generation is
`mutate(crossover(p, p))`, and self-crossover reproduces `p`; if the
mutation does not trigger the population is unchanged. -/
theorem ga_step_single_nomut (coordinates : List Coord) (mutation_rate : ℝ)
    (p : List ℕ) (d : GenDraws)
    (hn : 1 ≤ coordinates.length)
    (hp : p.Perm (List.range coordinates.length))
    (hnm : ¬ (d.mr 0 < mutation_rate)) :
    ga_step coordinates 1 mutation_rate [p] d = [p] := by
  unfold ga_step
  show (sort_by_fitness coordinates [p]).take 0
      ++ (List.range 1).map (make_child coordinates 1 mutation_rate
          (weighted_choices [p] 1 d) d) = [p]
  rw [List.take_zero, List.nil_append, show List.range 1 = [0] from rfl,
    List.map_cons, List.map_nil]
  have hpool : ∀ i : ℕ, (weighted_choices [p] 1 d).getD (i % 1) [] = p := by
    intro i
    rw [Nat.mod_one]
    show [([p] : List (List ℕ)).getD (d.pool 0 % 1) []].getD 0 [] = p
    rw [Nat.mod_one]
    rfl
  have hchild : make_child coordinates 1 mutation_rate (weighted_choices [p] 1 d) d 0
      = p := by
    unfold make_child
    rw [hpool, hpool]
    obtain ⟨hss, hsn⟩ := xo_bounds_valid coordinates.length (d.xo 0) hn
    rw [crossover_self coordinates.length p _ _ hp hss hsn]
    unfold mutate
    rw [if_neg hnm]
  rw [hchild]

/-- The whole generation loop is the identity on a single-individual
population when no generation's mutation triggers. -/
theorem run_ga_single_nomut (coordinates : List Coord) (mutation_rate : ℝ)
    (hn : 1 ≤ coordinates.length) :
    ∀ (generations : ℕ) (p : List ℕ) (draws : ℕ → GenDraws),
      p.Perm (List.range coordinates.length) →
      (∀ g, ¬ ((draws g).mr 0 < mutation_rate)) →
      run_ga coordinates 1 mutation_rate generations [p] draws = [p] := by
  intro generations
  induction generations with
  | zero => intro p draws _ _; rfl
  | succ g ih =>
      intro p draws hp hnm
      show run_ga coordinates 1 mutation_rate g
        (ga_step coordinates 1 mutation_rate [p] (draws 0)) (fun k => draws (k + 1)) = [p]
      rw [ga_step_single_nomut coordinates mutation_rate p (draws 0) hn hp (hnm 0)]
      exact ih p _ hp (fun g' => hnm (g' + 1))

/-- C9 (amended): with `population_size = 1` there is no elitism
(`int(0.1) = 0`); the sole individual is replaced each generation by
`mutate(crossover(self, self))`, and self-crossover is the identity, so
the route can change only through mutation swaps.  When no mutation
triggers (in particular for `mutation_rate = 0`), the returned route is
exactly the single random initial individual, with equal tour length. -/
theorem C9_population_size_one_no_mutation (coordinates : List Coord)
    (generations : ℕ) (mutation_rate : ℝ) (init : ℕ → List ℕ) (draws : ℕ → GenDraws)
    (hn : 1 ≤ coordinates.length)
    (hinit : (init 0).Perm (List.range coordinates.length))
    (hnm : ∀ g, ¬ ((draws g).mr 0 < mutation_rate)) :
    genetic_algorithm coordinates 1 generations mutation_rate init draws = init 0 ∧
    calculate_total_distance
        (genetic_algorithm coordinates 1 generations mutation_rate init draws) coordinates
      = calculate_total_distance (init 0) coordinates := by
  have h : genetic_algorithm coordinates 1 generations mutation_rate init draws
      = init 0 := by
    unfold genetic_algorithm
    show max_by_fitness coordinates
      (run_ga coordinates 1 mutation_rate generations [init 0] draws) = init 0
    rw [run_ga_single_nomut coordinates mutation_rate hn generations (init 0) draws
      hinit hnm]
    rfl
  exact ⟨h, by rw [h]⟩

/-- Concrete instance of `C9_population_size_one_no_mutation` on the
segment with mutation rate 0. -/
theorem C9_population_size_one_no_mutation_witness :
    genetic_algorithm seg_coords 1 5 0 (fun _ => [0, 1]) (fun _ => triv_draws) = [0, 1] ∧
    calculate_total_distance
        (genetic_algorithm seg_coords 1 5 0 (fun _ => [0, 1]) (fun _ => triv_draws))
        seg_coords
      = calculate_total_distance [0, 1] seg_coords :=
  C9_population_size_one_no_mutation seg_coords 5 0 (fun _ => [0, 1])
    (fun _ => triv_draws) (by rw [show seg_coords.length = 2 from rfl]; omega)
    (by rw [show seg_coords.length = 2 from rfl]; decide) (fun g => lt_irrefl 0)

/-- C9 counterexample: with `population_size = 1`, `generations = 5` and
`mutation_rate = 1` on the square, starting from the initial shuffle
`[0,1,2,3]`, the mutation (triggered every generation, swapping
positions 1 and 2) leaves the final route `[0,2,1,3]`, whose tour length
differs from the initial individual's tour length — the population is
not copied by elitism (`elite_size 1 = 0`) and the output length is not
that of the initial tour, contradicting the claim for arbitrary
mutation rates in `[0, 1]`. -/
theorem C9_counterexample_mutation_changes_route :
    elite_size 1 = 0 ∧
    genetic_algorithm sq_coords 1 5 1 (fun _ => [0, 1, 2, 3]) (fun _ => mut_draws)
      = [0, 2, 1, 3] ∧
    calculate_total_distance
        (genetic_algorithm sq_coords 1 5 1 (fun _ => [0, 1, 2, 3]) (fun _ => mut_draws))
        sq_coords
      ≠ calculate_total_distance [0, 1, 2, 3] sq_coords := by
  have h5 : run_ga sq_coords 1 1 5 [[0, 1, 2, 3]] (fun _ => mut_draws)
      = run_ga sq_coords 1 1 4 [[0, 2, 1, 3]] (fun _ => mut_draws) := by
    show run_ga sq_coords 1 1 4 (ga_step sq_coords 1 1 [[0, 1, 2, 3]] mut_draws)
      (fun _ => mut_draws) = _
    rw [ga_step_sq_single [0, 1, 2, 3] (by decide),
      show swapL [0, 1, 2, 3] 1 2 = [0, 2, 1, 3] from by decide]
  have h4 : run_ga sq_coords 1 1 4 [[0, 2, 1, 3]] (fun _ => mut_draws)
      = run_ga sq_coords 1 1 3 [[0, 1, 2, 3]] (fun _ => mut_draws) := by
    show run_ga sq_coords 1 1 3 (ga_step sq_coords 1 1 [[0, 2, 1, 3]] mut_draws)
      (fun _ => mut_draws) = _
    rw [ga_step_sq_single [0, 2, 1, 3] (by decide),
      show swapL [0, 2, 1, 3] 1 2 = [0, 1, 2, 3] from by decide]
  have h3 : run_ga sq_coords 1 1 3 [[0, 1, 2, 3]] (fun _ => mut_draws)
      = run_ga sq_coords 1 1 2 [[0, 2, 1, 3]] (fun _ => mut_draws) := by
    show run_ga sq_coords 1 1 2 (ga_step sq_coords 1 1 [[0, 1, 2, 3]] mut_draws)
      (fun _ => mut_draws) = _
    rw [ga_step_sq_single [0, 1, 2, 3] (by decide),
      show swapL [0, 1, 2, 3] 1 2 = [0, 2, 1, 3] from by decide]
  have h2 : run_ga sq_coords 1 1 2 [[0, 2, 1, 3]] (fun _ => mut_draws)
      = run_ga sq_coords 1 1 1 [[0, 1, 2, 3]] (fun _ => mut_draws) := by
    show run_ga sq_coords 1 1 1 (ga_step sq_coords 1 1 [[0, 2, 1, 3]] mut_draws)
      (fun _ => mut_draws) = _
    rw [ga_step_sq_single [0, 2, 1, 3] (by decide),
      show swapL [0, 2, 1, 3] 1 2 = [0, 1, 2, 3] from by decide]
  have h1 : run_ga sq_coords 1 1 1 [[0, 1, 2, 3]] (fun _ => mut_draws)
      = [[0, 2, 1, 3]] := by
    show run_ga sq_coords 1 1 0 (ga_step sq_coords 1 1 [[0, 1, 2, 3]] mut_draws)
      (fun _ => mut_draws) = _
    rw [ga_step_sq_single [0, 1, 2, 3] (by decide),
      show swapL [0, 1, 2, 3] 1 2 = [0, 2, 1, 3] from by decide]
    rfl
  have hrun : genetic_algorithm sq_coords 1 5 1 (fun _ => [0, 1, 2, 3])
      (fun _ => mut_draws) = [0, 2, 1, 3] := by
    unfold genetic_algorithm
    show max_by_fitness sq_coords
      (run_ga sq_coords 1 1 5 [[0, 1, 2, 3]] (fun _ => mut_draws)) = [0, 2, 1, 3]
    rw [h5, h4, h3, h2, h1]
    rfl
  refine ⟨rfl, hrun, ?_⟩
  rw [hrun, sq_len_0213, sq_len_0123]
  intro h
  have := sqrt_200_gt_10
  linarith

end Task3
